import Mathlib

/-!
Verification of the data acquisition, reconciliation and filtering pipeline
of `src/dashboard.py` (a stock-ranking dashboard).

Shallow embedding conventions:
- pandas numeric values are modelled by `Rat`; a cell that pandas would hold
  as `NaN` (missing) is modelled by `Option.none`.
- The external lookup service (`yfinance`) is a parameter: per-identifier
  reference lookups are a function `String → Except Unit ReferenceInfo`
  (`.error` = the lookup raised), price-history lookups a function
  `String → Except Unit PriceSeries`.
- DataFrames appear in two views, matching how the script uses them:
  a column view (`DataFrame` = list of named columns of `Value` cells) for
  `load_data`, and a row view (lists of records) for the merge/filter part.
- The Japanese column names of the source are romanized in record fields:
  `ticker` = ティッカー, `name` = 会社名, `sector` = セクター,
  `marketCap` = 時価総額, and the five score columns 総合/VALUE/QUALITY/
  GROWTH/MOMENTUMスコア become `overall`, `value`, `quality`, `growth`,
  `momentum`. Column-name strings keep the original spelling.
-/

namespace Dashboard

/-- One cell of a pandas DataFrame column: a string, a number, or missing
(`NaN`). -/
inductive Value where
  | str (s : String)
  | num (q : Rat)
  | na
deriving DecidableEq, Repr

/-- Column view of a DataFrame: named columns of cells, as produced by
`pd.read_csv`. -/
abbrev DataFrame := List (String × List Value)

/-- The five score column names of `load_data` in `src/dashboard.py`. -/
def score_cols : List String :=
  ["総合スコア", "VALUEスコア", "QUALITYスコア", "GROWTHスコア", "MOMENTUMスコア"]

/-- `pd.to_numeric(cell, errors='coerce')` on one cell: numbers and missing
values pass through, a string parses to a number or is coerced to missing.
The string-to-number parse itself (`parseNum`) is a parameter of the
embedding. -/
def toNumeric (parseNum : String → Option Rat) : Value → Value
  | Value.num q => Value.num q
  | Value.na => Value.na
  | Value.str s =>
    match parseNum s with
    | some q => Value.num q
    | none => Value.na

/-- The column transformation of `load_data`: every score column that is
present is coerced numeric; all other columns are untouched, and no column is
added or removed. -/
def load_data (parseNum : String → Option Rat) (df : DataFrame) : DataFrame :=
  df.map (fun c => if c.1 ∈ score_cols then (c.1, c.2.map (toNumeric parseNum)) else c)

/-- `load_data` including the `FileNotFoundError` handler: `fs` models the
file system (`none` = `pd.read_csv` raises `FileNotFoundError`), and the
handler returns `None`. -/
def load_data_fs (parseNum : String → Option Rat) (fs : String → Option DataFrame)
    (file_path : String) : Option DataFrame :=
  match fs file_path with
  | none => none
  | some df => some (load_data parseNum df)

/-- The fields `get_detailed_data` reads from `yf.Ticker(t).info`:
`shortName`, `sector`, `marketCap`, each possibly missing
(`info.get` returns `None`). -/
structure ReferenceInfo where
  shortName : Option String
  sector : Option String
  marketCap : Option Rat
deriving DecidableEq, Repr

/-- One row appended to `detailed_data` inside `get_detailed_data`
(columns ティッカー, 会社名, セクター, 時価総額). -/
structure DetRow where
  ticker : String
  name : Option String
  sector : Option String
  marketCap : Option Rat
deriving DecidableEq, Repr

/-- The body of one loop iteration of `get_detailed_data`: a lookup that may
raise, followed by the construction of the detailed row from `info.get`. -/
def fetchOne (info : String → Except Unit ReferenceInfo) (t : String) :
    Except Unit DetRow :=
  (info t).map (fun i => ⟨t, i.shortName, i.sector, i.marketCap⟩)

/-- `get_detailed_data`: one independent lookup per ticker; an iteration whose
lookup raises is skipped (`except Exception: continue`) and the loop goes on. -/
def get_detailed_data (info : String → Except Unit ReferenceInfo) :
    List String → List DetRow
  | [] => []
  | t :: ts =>
    match fetchOne info t with
    | Except.error _ => get_detailed_data info ts
    | Except.ok r => r :: get_detailed_data info ts

/-- `get_detailed_data` with the exception flow explicit: each iteration's
lookup runs in `Except` and its failure is caught locally (`continue`), so the
batch itself can only be `Except.ok`. -/
def get_detailed_dataE (info : String → Except Unit ReferenceInfo) :
    List String → Except Unit (List DetRow)
  | [] => Except.ok []
  | t :: ts => do
    let first ←
      match fetchOne info t with
      | Except.error _ => Except.ok []          -- the `except: continue` handler
      | Except.ok r => Except.ok [r]
    let rest ← get_detailed_dataE info ts
    Except.ok (first ++ rest)

/-- One row of the loaded ranking table (`base_df` / `top_100_df`): the ticker,
the stale 会社名 column, and the five (possibly missing) scores. -/
structure RankRow where
  ticker : String
  name : Option String
  overall : Option Rat
  value : Option Rat
  quality : Option Rat
  growth : Option Rat
  momentum : Option Rat
deriving DecidableEq, Repr

/-- One row of `base_scores_df`: a ranking row after
`drop(columns=['会社名'])`. -/
structure BaseRow where
  ticker : String
  overall : Option Rat
  value : Option Rat
  quality : Option Rat
  growth : Option Rat
  momentum : Option Rat
deriving DecidableEq, Repr

/-- `top_100_df.drop(columns=['会社名'])` on one row. -/
def dropName (r : RankRow) : BaseRow :=
  ⟨r.ticker, r.overall, r.value, r.quality, r.growth, r.momentum⟩

/-- One row of the merged frame `df`: scores from the ranking side, the three
enrichment fields from the detailed side (missing when the left join found no
match, or when the lookup returned partial data). -/
structure MergedRow where
  ticker : String
  overall : Option Rat
  value : Option Rat
  quality : Option Rat
  growth : Option Rat
  momentum : Option Rat
  name : Option String
  sector : Option String
  marketCap : Option Rat
deriving DecidableEq, Repr

/-- Combine one left row with one matching right row of the join. -/
def joinRow (b : BaseRow) (d : DetRow) : MergedRow :=
  ⟨b.ticker, b.overall, b.value, b.quality, b.growth, b.momentum,
    d.name, d.sector, d.marketCap⟩

/-- One left row kept with no match: the right-hand columns become missing. -/
def unmatchedRow (b : BaseRow) : MergedRow :=
  ⟨b.ticker, b.overall, b.value, b.quality, b.growth, b.momentum,
    none, none, none⟩

/-- `pd.merge(base_scores_df, detailed_df, on='ティッカー', how='left')`:
every left row is paired with each right row of equal ticker, or kept once
with missing right-hand columns when there is no match. -/
def merge_left (base : List BaseRow) (det : List DetRow) : List MergedRow :=
  base.flatMap (fun b =>
    match det.filter (fun d => d.ticker == b.ticker) with
    | [] => [unmatchedRow b]
    | ms => ms.map (joinRow b))

/-- `df.dropna(subset=['セクター', '時価総額', '会社名'])`. -/
def dropnaEssential (rows : List MergedRow) : List MergedRow :=
  rows.filter (fun r => r.sector.isSome && r.marketCap.isSome && r.name.isSome)

/-- The whole Reconciler block of the script on an already-truncated ranking
table: drop the stale name column, fetch detailed data for the (truncated)
tickers, left-join on ticker, and drop rows missing an essential field. -/
def reconcile (rows : List RankRow) (info : String → Except Unit ReferenceInfo) :
    List MergedRow :=
  let top_tickers := rows.map (fun r => r.ticker)
  let detailed_df := get_detailed_data info top_tickers
  let base_scores_df := rows.map dropName
  dropnaEssential (merge_left base_scores_df detailed_df)

/-- `base_df.head(100)`. -/
def top100 (base : List RankRow) : List RankRow := base.take 100

/-- The enrichment pipeline from the loaded ranking table to the cleaned
merged frame `df`. -/
def pipeline (base : List RankRow) (info : String → Except Unit ReferenceInfo) :
    List MergedRow :=
  reconcile (top100 base) info

/-- `pd.merge(base_scores_df, detailed_df, on='ティッカー', how='left')` with
its error path: `detailed_df` is `pd.DataFrame(detailed_data)`, and when
`detailed_data` is the empty list (every lookup failed) that frame has no
columns at all, so the merge raises `KeyError: 'ティッカー'`. A nonempty
`detailed_data` always carries the `ティッカー` key, and the merge
succeeds as in `merge_left`. -/
def mergeE (base : List BaseRow) (det : List DetRow) :
    Except Unit (List MergedRow) :=
  match det with
  | [] => Except.error ()
  | _ :: _ => Except.ok (merge_left base det)

/-- The Reconciler block with the merge's error path kept: fetch, merge
(raising when the fetched table is column-less), then the essential-field
cleanup. -/
def reconcileE (rows : List RankRow) (info : String → Except Unit ReferenceInfo) :
    Except Unit (List MergedRow) :=
  let top_tickers := rows.map (fun r => r.ticker)
  let detailed_df := get_detailed_data info top_tickers
  let base_scores_df := rows.map dropName
  (mergeE base_scores_df detailed_df).map dropnaEssential

/-- The enrichment pipeline with the merge's error path kept. -/
def pipelineE (base : List RankRow) (info : String → Except Unit ReferenceInfo) :
    Except Unit (List MergedRow) :=
  reconcileE (top100 base) info

/-- The sidebar filter: keep a row iff its overall score is in
`[lo, hi]` (a missing score compares false, as a pandas `NaN` does) and its
sector is one of the selected sectors (`isin`; a missing sector is never
`isin` a list of labels). -/
def screener (rows : List MergedRow) (lo hi : Rat) (sectors : List String) :
    List MergedRow :=
  rows.filter (fun r =>
    (match r.overall with
     | some s => decide (lo ≤ s) && decide (s ≤ hi)
     | none => false)
    && (match r.sector with
        | some sec => sectors.contains sec
        | none => false))

/-- The overall-score column of `df` with missing entries skipped, as pandas
`min` / `max` / `quantile` treat it (`skipna`). -/
def presentScores (rows : List MergedRow) : List Rat :=
  rows.filterMap (fun r => r.overall)

/-- Insert into a sorted list (ascending). -/
def insertSorted (x : Rat) : List Rat → List Rat
  | [] => [x]
  | y :: ys => if x ≤ y then x :: y :: ys else y :: insertSorted x ys

/-- Sort ascending (insertion sort). -/
def sortRats (xs : List Rat) : List Rat := xs.foldr insertSorted []

/-- `Series.quantile(0.5)` with pandas' default linear interpolation, on the
present values: at position `q*(n-1) = (n-1)/2` of the sorted values, the
floor index plus the fractional part times the gap to the next value. The
floor of the nonnegative rational `(n-1)/2` is written as natural division. -/
def quantile_half (xs : List Rat) : Rat :=
  let s := sortRats xs
  let n := s.length
  let i := (n - 1) / 2
  let frac : Rat := ((n - 1 : Nat) : Rat) / 2 - (i : Rat)
  s.getD i 0 + frac * (s.getD (i + 1) 0 - s.getD i 0)

/-- `Series.max()` on the present values. -/
def seriesMax (xs : List Rat) : Rat :=
  match xs with
  | [] => 0
  | x :: rest => rest.foldl max x

/-- `df['セクター'].unique().tolist()` on the cleaned frame: the distinct
sector labels, first occurrence first. -/
def all_sectors (rows : List MergedRow) : List String :=
  (rows.filterMap (fun r => r.sector)).dedup

/-- The default lower bound of the score slider:
`df['総合スコア'].quantile(0.5)`. -/
def defaultLo (rows : List MergedRow) : Rat := quantile_half (presentScores rows)

/-- The default upper bound of the score slider: `df['総合スコア'].max()`. -/
def defaultHi (rows : List MergedRow) : Rat := seriesMax (presentScores rows)

/-- The median as the spec words it: the middle of the sorted values, or the
mean of the two middle values when their number is even. Stated from the
spec to compare with the code's `quantile(0.5)`. -/
def medianSpec (xs : List Rat) : Rat :=
  let s := sortRats xs
  let n := s.length
  if n % 2 = 1 then s.getD (n / 2) 0
  else (s.getD (n / 2 - 1) 0 + s.getD (n / 2) 0) / 2

/-- A price series: (date, closing price) rows of `stock.history`. -/
abbrev PriceSeries := List (Nat × Rat)

/-- `get_price_history`: return the history the lookup produced, or `None`
when the lookup raises. -/
def get_price_history (hist : String → Except Unit PriceSeries) (ticker : String) :
    Option PriceSeries :=
  match hist ticker with
  | Except.error _ => none
  | Except.ok s => some s

/-- Modelled from the spec: the `ResultCache` (`@st.cache_data`, which is
Streamlit library code, not part of this repository's source) memoizes a
function keyed by its argument; a hit returns the stored value, a miss
invokes the function and stores the result. The returned flag records
whether the underlying function was invoked. -/
def cachedCall {α β : Type} [DecidableEq α] (f : α → β)
    (cache : List (α × β)) (x : α) : β × List (α × β) × Bool :=
  match cache.find? (fun p => p.1 == x) with
  | some p => (p.2, cache, false)
  | none => (f x, (x, f x) :: cache, true)

/-- The ranking table of the spec's walkthrough scenario: identifiers A, B, C
with overall scores 5, 8, 2 and stale names. -/
def exBase : List RankRow :=
  [⟨"A", some "OldA", some 5, none, none, none, none⟩,
   ⟨"B", some "OldB", some 8, none, none, none, none⟩,
   ⟨"C", some "OldC", some 2, none, none, none, none⟩]

/-- The lookup of the spec's walkthrough scenario: A and B succeed (sectors
Tech and Finance, caps 100 and 200), C raises. -/
def exInfo : String → Except Unit ReferenceInfo := fun t =>
  if t = "A" then Except.ok ⟨some "NewA", some "Tech", some 100⟩
  else if t = "B" then Except.ok ⟨some "NewB", some "Finance", some 200⟩
  else Except.error ()

/-! ### Helper lemmas -/

/-- A successful loop iteration: the constructed row is exactly the lookup's
fields under the iterated ticker. -/
theorem fetchOne_ok_iff {info : String → Except Unit ReferenceInfo} {t : String}
    {r : DetRow} :
    fetchOne info t = Except.ok r ↔
      ∃ i, info t = Except.ok i ∧ r = ⟨t, i.shortName, i.sector, i.marketCap⟩ := by
  unfold fetchOne
  cases h : info t with
  | error e => simp [Except.map, h]
  | ok i =>
    simp only [Except.map, h]
    constructor
    · intro he
      exact ⟨i, rfl, (Except.ok.injEq _ _ ▸ he).symm⟩
    · rintro ⟨i', hi', rfl⟩
      cases hi'
      rfl

/-- Every row of the detailed table records a ticker from the input list whose
lookup succeeded with exactly the row's fields. -/
theorem mem_get_detailed_data {info : String → Except Unit ReferenceInfo}
    {ts : List String} {d : DetRow} (h : d ∈ get_detailed_data info ts) :
    d.ticker ∈ ts ∧ info d.ticker = Except.ok ⟨d.name, d.sector, d.marketCap⟩ := by
  induction ts with
  | nil => cases h
  | cons t ts ih =>
    rw [get_detailed_data] at h
    cases hf : fetchOne info t with
    | error e =>
      rw [hf] at h
      rcases ih h with ⟨h1, h2⟩
      exact ⟨List.mem_cons_of_mem _ h1, h2⟩
    | ok r =>
      rw [hf] at h
      rcases List.mem_cons.mp h with h | h
      · subst h
        rcases fetchOne_ok_iff.mp hf with ⟨i, hi, rfl⟩
        exact ⟨List.mem_cons_self _ _, by simpa using hi⟩
      · rcases ih h with ⟨h1, h2⟩
        exact ⟨List.mem_cons_of_mem _ h1, h2⟩

/-- A ticker whose lookup succeeds is represented in the detailed table with
exactly the fields the lookup returned. -/
theorem get_detailed_data_complete {info : String → Except Unit ReferenceInfo}
    {ts : List String} {t : String} {i : ReferenceInfo}
    (ht : t ∈ ts) (hi : info t = Except.ok i) :
    (⟨t, i.shortName, i.sector, i.marketCap⟩ : DetRow) ∈ get_detailed_data info ts := by
  induction ts with
  | nil => cases ht
  | cons u ts ih =>
    rw [get_detailed_data]
    rcases List.mem_cons.mp ht with h | h
    · subst h
      have : fetchOne info t = Except.ok ⟨t, i.shortName, i.sector, i.marketCap⟩ :=
        fetchOne_ok_iff.mpr ⟨i, hi, rfl⟩
      rw [this]
      exact List.mem_cons_self _ _
    · cases hf : fetchOne info u with
      | error e => exact ih h
      | ok r => exact List.mem_cons_of_mem _ (ih h)

/-- Structure of a merged row: it comes from a left row, either unmatched or
joined with a right row of equal ticker. -/
theorem mem_merge_left {base : List BaseRow} {det : List DetRow} {r : MergedRow}
    (h : r ∈ merge_left base det) :
    ∃ b ∈ base, r = unmatchedRow b ∨
      ∃ d ∈ det, d.ticker = b.ticker ∧ r = joinRow b d := by
  rcases List.mem_flatMap.mp h with ⟨b, hb, hr⟩
  refine ⟨b, hb, ?_⟩
  cases hm : det.filter (fun d => d.ticker == b.ticker) with
  | nil =>
    rw [hm] at hr
    simp only [List.mem_singleton] at hr
    exact Or.inl hr
  | cons m ms =>
    rw [hm] at hr
    rcases List.mem_map.mp hr with ⟨d, hd, rfl⟩
    have hd' : d ∈ det.filter (fun d => d.ticker == b.ticker) := hm ▸ hd
    rcases List.mem_filter.mp hd' with ⟨hdet, hbeq⟩
    exact Or.inr ⟨d, hdet, by simpa using hbeq, rfl⟩

/-- A merged row keeps its left row's ticker. -/
theorem mem_merge_left_ticker {base : List BaseRow} {det : List DetRow}
    {r : MergedRow} (h : r ∈ merge_left base det) :
    ∃ b ∈ base, r.ticker = b.ticker := by
  rcases mem_merge_left h with ⟨b, hb, h | ⟨d, _, _, rfl⟩⟩
  · exact ⟨b, hb, by rw [h]; rfl⟩
  · exact ⟨b, hb, rfl⟩

/-- When every lookup raises, the detailed table is empty. -/
theorem get_detailed_data_all_fail {info : String → Except Unit ReferenceInfo}
    (hall : ∀ t, info t = Except.error ()) (ts : List String) :
    get_detailed_data info ts = [] := by
  induction ts with
  | nil => rfl
  | cons t ts ih =>
    rw [get_detailed_data]
    have : fetchOne info t = Except.error () := by
      unfold fetchOne
      rw [hall t]
      rfl
    rw [this, ih]

/-- The explicit-exception fetcher always succeeds, with the same rows as the
plain one. -/
theorem get_detailed_dataE_ok (info : String → Except Unit ReferenceInfo)
    (ts : List String) :
    get_detailed_dataE info ts = Except.ok (get_detailed_data info ts) := by
  induction ts with
  | nil => rfl
  | cons t ts ih =>
    rw [get_detailed_dataE, get_detailed_data]
    cases hf : fetchOne info t with
    | error e =>
      simp only [ih]
      rfl
    | ok r =>
      simp only [ih]
      rfl

/-- A left join against an empty right table yields only unmatched rows, which
the essential-field cleanup then removes entirely. -/
theorem dropnaEssential_merge_left_nil (base : List BaseRow) :
    dropnaEssential (merge_left base []) = [] := by
  induction base with
  | nil => rfl
  | cons b bs ih =>
    unfold merge_left at ih ⊢
    rw [List.flatMap_cons]
    show List.filter _ ([unmatchedRow b] ++ _) = _
    rw [List.filter_append]
    have h1 : List.filter
        (fun r => r.sector.isSome && r.marketCap.isSome && r.name.isSome)
        [unmatchedRow b] = [] := rfl
    rw [h1]
    simpa [dropnaEssential] using ih

/-- Inserting into a list grows its length by one. -/
theorem insertSorted_length (x : Rat) (l : List Rat) :
    (insertSorted x l).length = l.length + 1 := by
  induction l with
  | nil => rfl
  | cons y ys ih =>
    unfold insertSorted
    split
    · rfl
    · simp [ih]

/-- Sorting preserves length. -/
theorem sortRats_length (xs : List Rat) : (sortRats xs).length = xs.length := by
  induction xs with
  | nil => rfl
  | cons x xs ih =>
    show (insertSorted x (sortRats xs)).length = xs.length + 1
    rw [insertSorted_length, ih]

/-- The linear-interpolation formula at the midpoint of a list equals the
middle element (odd length) or the mean of the two middle elements (even
length). -/
theorem interp_half_formula (s : List Rat) (hn : s.length ≠ 0) :
    s.getD ((s.length - 1) / 2) 0 +
      (((s.length - 1 : Nat) : Rat) / 2 - (((s.length - 1) / 2 : Nat) : Rat)) *
        (s.getD ((s.length - 1) / 2 + 1) 0 - s.getD ((s.length - 1) / 2) 0) =
    (if s.length % 2 = 1 then s.getD (s.length / 2) 0
     else (s.getD (s.length / 2 - 1) 0 + s.getD (s.length / 2) 0) / 2) := by
  rcases Nat.even_or_odd s.length with ⟨m, hm⟩ | ⟨m, hm⟩
  · -- even length: s.length = m + m with m ≥ 1
    have hm1 : 1 ≤ m := by omega
    rw [hm]
    rw [show (m + m - 1) / 2 = m - 1 by omega]
    rw [show (m + m) / 2 = m by omega]
    rw [if_neg (by omega)]
    rw [show (m + m - 1 : Nat) = 2 * (m - 1) + 1 by omega]
    rw [show (m - 1) + 1 = m by omega]
    have hc : ((2 * (m - 1) + 1 : Nat) : Rat) / 2 - ((m - 1 : Nat) : Rat) = 1 / 2 := by
      push_cast
      ring
    rw [hc]
    ring
  · -- odd length: s.length = 2 * m + 1
    rw [hm]
    rw [show (2 * m + 1 - 1) / 2 = m by omega]
    rw [show (2 * m + 1) / 2 = m by omega]
    rw [if_pos (by omega)]
    rw [show (2 * m + 1 - 1 : Nat) = 2 * m by omega]
    have hc : ((2 * m : Nat) : Rat) / 2 - ((m : Nat) : Rat) = 0 := by
      push_cast
      ring
    rw [hc]
    ring

/-- The code's `quantile(0.5)` computes exactly the spec's median. -/
theorem quantile_half_eq_medianSpec (xs : List Rat) (h : xs ≠ []) :
    quantile_half xs = medianSpec xs := by
  have hn : (sortRats xs).length ≠ 0 := by
    rw [sortRats_length]
    simpa using h
  simpa only [quantile_half, medianSpec] using interp_half_formula (sortRats xs) hn

/-- The start value bounds a max-fold from below. -/
theorem le_foldl_max (l : List Rat) (a : Rat) : a ≤ l.foldl max a := by
  induction l generalizing a with
  | nil => exact le_refl a
  | cons x xs ih => exact le_trans (le_max_left a x) (ih (max a x))

/-- A max-fold returns its start value or a list element. -/
theorem foldl_max_mem (l : List Rat) (a : Rat) :
    l.foldl max a = a ∨ l.foldl max a ∈ l := by
  induction l generalizing a with
  | nil => exact Or.inl rfl
  | cons x xs ih =>
    rcases ih (max a x) with h | h
    · rcases max_choice a x with hm | hm
      · exact Or.inl (by rw [List.foldl_cons, h, hm])
      · exact Or.inr (by rw [List.foldl_cons, h, hm]; exact List.mem_cons_self _ _)
    · exact Or.inr (List.mem_cons_of_mem _ (by rw [List.foldl_cons]; exact h))

/-- Every list element is bounded by a max-fold over the list. -/
theorem mem_le_foldl_max (l : List Rat) (a x : Rat) (hx : x ∈ l) :
    x ≤ l.foldl max a := by
  induction l generalizing a with
  | nil => cases hx
  | cons y ys ih =>
    rcases List.mem_cons.mp hx with rfl | h
    · exact le_trans (le_max_right a x) (le_foldl_max ys (max a x))
    · exact ih (max a y) h

/-- `Series.max()` of a nonempty series is one of its values. -/
theorem seriesMax_mem (xs : List Rat) (h : xs ≠ []) : seriesMax xs ∈ xs := by
  cases xs with
  | nil => exact absurd rfl h
  | cons x rest =>
    rcases foldl_max_mem rest x with hm | hm
    · rw [seriesMax, hm]
      exact List.mem_cons_self _ _
    · exact List.mem_cons_of_mem _ hm

/-- `Series.max()` bounds every value of the series. -/
theorem seriesMax_le (xs : List Rat) (x : Rat) (hx : x ∈ xs) : x ≤ seriesMax xs := by
  cases xs with
  | nil => cases hx
  | cons y rest =>
    rcases List.mem_cons.mp hx with rfl | h
    · exact le_foldl_max rest x
    · exact mem_le_foldl_max rest y x h

/-! ### Claim theorems -/

/-- C1: every row of the Reconciler's merged output (left join of a
name-dropped ranking table with a reference table, then the essential-field
cleanup) has sector, market cap and name all present, for every ranking table
and every reference table. -/
theorem reconcile_rows_have_essential_fields (rows : List RankRow)
    (det : List DetRow) (r : MergedRow)
    (h : r ∈ dropnaEssential (merge_left (rows.map dropName) det)) :
    r.sector.isSome ∧ r.marketCap.isSome ∧ r.name.isSome := by
  unfold dropnaEssential at h
  rcases List.mem_filter.mp h with ⟨-, hp⟩
  simp only [Bool.and_eq_true] at hp
  exact ⟨hp.1.1, hp.1.2, hp.2⟩

/-- Witness for C1 at a concrete one-row table. -/
theorem reconcile_rows_have_essential_fields_witness :
    (joinRow ⟨"A", some 5, none, none, none, none⟩
        ⟨"A", some "Alpha", some "Tech", some 100⟩).sector.isSome ∧
    (joinRow ⟨"A", some 5, none, none, none, none⟩
        ⟨"A", some "Alpha", some "Tech", some 100⟩).marketCap.isSome ∧
    (joinRow ⟨"A", some 5, none, none, none, none⟩
        ⟨"A", some "Alpha", some "Tech", some 100⟩).name.isSome :=
  reconcile_rows_have_essential_fields
    [⟨"A", some "Old", some 5, none, none, none, none⟩]
    [⟨"A", some "Alpha", some "Tech", some 100⟩] _ (by decide)

/-- C2: the stale ranking-side name column is dropped before the join, so each
Reconciler output row carries exactly the fields of a successful reference
lookup for its own identifier — in particular its display name is the
lookup's name, never the ranking file's. -/
theorem merged_name_from_reference (rows : List RankRow)
    (info : String → Except Unit ReferenceInfo) (r : MergedRow)
    (h : r ∈ reconcile rows info) :
    ∃ i, info r.ticker = Except.ok i ∧ r.name = i.shortName ∧
      r.sector = i.sector ∧ r.marketCap = i.marketCap := by
  unfold reconcile dropnaEssential at h
  rcases List.mem_filter.mp h with ⟨hm, hp⟩
  rcases mem_merge_left hm with ⟨b, hb, hcase⟩
  rcases hcase with rfl | ⟨d, hd, htk, rfl⟩
  · simp [unmatchedRow] at hp
  · rcases mem_get_detailed_data hd with ⟨-, hinfo⟩
    refine ⟨⟨d.name, d.sector, d.marketCap⟩, ?_, rfl, rfl, rfl⟩
    have : (joinRow b d).ticker = d.ticker := htk ▸ rfl
    rw [this]
    exact hinfo

/-- Witness for C2 at a concrete table and lookup. -/
theorem merged_name_from_reference_witness :
    ∃ i, (fun t => if t = "A"
            then Except.ok (⟨some "Alpha", some "Tech", some 100⟩ : ReferenceInfo)
            else Except.error ()) (joinRow ⟨"A", some 5, none, none, none, none⟩
              ⟨"A", some "Alpha", some "Tech", some 100⟩).ticker = Except.ok i ∧
      (joinRow ⟨"A", some 5, none, none, none, none⟩
        ⟨"A", some "Alpha", some "Tech", some 100⟩).name = i.shortName ∧
      (joinRow ⟨"A", some 5, none, none, none, none⟩
        ⟨"A", some "Alpha", some "Tech", some 100⟩).sector = i.sector ∧
      (joinRow ⟨"A", some 5, none, none, none, none⟩
        ⟨"A", some "Alpha", some "Tech", some 100⟩).marketCap = i.marketCap :=
  merged_name_from_reference
    [⟨"A", some "Old", some 5, none, none, none, none⟩]
    (fun t => if t = "A"
      then Except.ok (⟨some "Alpha", some "Tech", some 100⟩ : ReferenceInfo)
      else Except.error ()) _ (by decide)

/-- C3 counterexample: at the all-fail scenario the claim covers, the
pipeline raises instead of returning a table — every lookup of the concrete
ranking table fails, the fetched table is column-less, and the merge raises
(`KeyError` on the join key). -/
theorem all_fail_merge_raises_counterexample :
    pipelineE exBase (fun _ => Except.error ()) = Except.error () := rfl

/-- C3 amended: for every partial-failure scenario in which at least one
reference lookup succeeds, the per-identifier fetch loop recovers each
failure locally (the batch fetch itself always returns `ok`), and the
pipeline returns a table to the caller without raising. -/
theorem partial_failure_recovered (base : List RankRow)
    (info : String → Except Unit ReferenceInfo) (t : String) (i : ReferenceInfo)
    (ht : t ∈ (top100 base).map (fun r => r.ticker))
    (hi : info t = Except.ok i) :
    (∃ l, get_detailed_dataE info ((top100 base).map (fun r => r.ticker)) =
        Except.ok l) ∧
    (∃ tbl, pipelineE base info = Except.ok tbl) := by
  refine ⟨⟨_, get_detailed_dataE_ok _ _⟩, ?_⟩
  have hmem := get_detailed_data_complete ht hi
  cases hdet : get_detailed_data info ((top100 base).map (fun r => r.ticker)) with
  | nil =>
    rw [hdet] at hmem
    cases hmem
  | cons d ds =>
    refine ⟨dropnaEssential (merge_left ((top100 base).map dropName) (d :: ds)), ?_⟩
    show (mergeE ((top100 base).map dropName)
        (get_detailed_data info ((top100 base).map (fun r => r.ticker)))).map
          dropnaEssential = _
    rw [hdet]
    rfl

/-- Witness for the amended C3 on the spec's walkthrough scenario: A and B
succeed while C's lookup fails, and the pipeline still returns a table. -/
theorem partial_failure_recovered_witness :
    (∃ l, get_detailed_dataE exInfo ((top100 exBase).map (fun r => r.ticker)) =
        Except.ok l) ∧
    (∃ tbl, pipelineE exBase exInfo = Except.ok tbl) :=
  partial_failure_recovered exBase exInfo "A"
    ⟨some "NewA", some "Tech", some 100⟩ (by decide) rfl

/-- C9: enrichment is computed from `base_df.head(100)` only — the tickers
handed to the fetcher are those of the first 100 rows, and every row of the
enriched or filtered output carries a ticker of the first 100 rows. -/
theorem pipeline_limited_to_top100 (base : List RankRow)
    (info : String → Except Unit ReferenceInfo) (lo hi : Rat)
    (sectors : List String) :
    ((top100 base).map (fun r => r.ticker) =
        (base.take 100).map (fun r => r.ticker)) ∧
    (∀ r ∈ pipeline base info,
        r.ticker ∈ (base.take 100).map (fun r => r.ticker)) ∧
    (∀ r ∈ screener (pipeline base info) lo hi sectors,
        r.ticker ∈ (base.take 100).map (fun r => r.ticker)) := by
  have key : ∀ r ∈ pipeline base info,
      r.ticker ∈ (base.take 100).map (fun r => r.ticker) := by
    intro r hr
    unfold pipeline reconcile dropnaEssential at hr
    rcases List.mem_filter.mp hr with ⟨hm, -⟩
    rcases mem_merge_left_ticker hm with ⟨b, hb, htk⟩
    rcases List.mem_map.mp hb with ⟨rr, hrr, rfl⟩
    rw [htk]
    exact List.mem_map.mpr ⟨rr, hrr, rfl⟩
  refine ⟨rfl, key, ?_⟩
  intro r hr
  unfold screener at hr
  exact key r (List.mem_filter.mp hr).1

/-- Witness for C9 at a concrete pipeline run. -/
theorem pipeline_limited_to_top100_witness :
    (joinRow ⟨"A", some 5, none, none, none, none⟩
        ⟨"A", some "Alpha", some "Tech", some 100⟩).ticker ∈
      List.map (fun r => r.ticker)
        (List.take 100
          ([⟨"A", some "Old", some 5, none, none, none, none⟩] : List RankRow)) :=
  (pipeline_limited_to_top100
    [⟨"A", some "Old", some 5, none, none, none, none⟩]
    (fun _ => Except.ok (⟨some "Alpha", some "Tech", some 100⟩ : ReferenceInfo))
    0 10 ["Tech"]).2.1
    (joinRow ⟨"A", some 5, none, none, none, none⟩
      ⟨"A", some "Alpha", some "Tech", some 100⟩) (by decide)

/-- C10: the per-identifier fetcher omits an identifier only when its lookup
raises: a successful lookup — even one whose response lacks name, sector and
market cap — contributes a row with exactly those (possibly absent) fields,
and every row of the result comes from a successful lookup on an input
ticker. -/
theorem detailed_data_mem_iff_lookup_ok (info : String → Except Unit ReferenceInfo)
    (ts : List String) :
    (∀ t i, t ∈ ts → info t = Except.ok i →
        (⟨t, i.shortName, i.sector, i.marketCap⟩ : DetRow) ∈
          get_detailed_data info ts) ∧
    (∀ d, d ∈ get_detailed_data info ts →
        d.ticker ∈ ts ∧ info d.ticker = Except.ok ⟨d.name, d.sector, d.marketCap⟩) :=
  ⟨fun _ _ ht hi => get_detailed_data_complete ht hi,
   fun _ hd => mem_get_detailed_data hd⟩

/-- Witness for C10: a lookup succeeding with all fields missing still
contributes its (fully absent) row. -/
theorem detailed_data_mem_iff_lookup_ok_witness :
    (⟨"Z", none, none, none⟩ : DetRow) ∈
      get_detailed_data (fun _ => Except.ok (⟨none, none, none⟩ : ReferenceInfo))
        ["Z"] :=
  (detailed_data_mem_iff_lookup_ok
    (fun _ => Except.ok (⟨none, none, none⟩ : ReferenceInfo)) ["Z"]).1
    "Z" ⟨none, none, none⟩ (by decide) rfl

/-- C4: the default filter criteria are derived from the cleaned enriched
table: the slider's default lower bound is the median of the present overall
scores, its default upper bound is their maximum (a score of the table that
bounds every score), and the default sector selection is exactly the set of
sectors present. -/
theorem default_filter_criteria (rows : List MergedRow)
    (h : presentScores rows ≠ []) :
    defaultLo rows = medianSpec (presentScores rows) ∧
    defaultHi rows ∈ presentScores rows ∧
    (∀ x ∈ presentScores rows, x ≤ defaultHi rows) ∧
    (∀ s, s ∈ all_sectors rows ↔ ∃ r ∈ rows, r.sector = some s) := by
  refine ⟨quantile_half_eq_medianSpec _ h, seriesMax_mem _ h,
    fun x hx => seriesMax_le _ x hx, fun s => ?_⟩
  simp [all_sectors, List.mem_dedup, List.mem_filterMap]

/-- Witness for C4 on the spec's walkthrough scenario (overall scores 5 and 8
survive enrichment). -/
theorem default_filter_criteria_witness :
    presentScores (pipeline exBase exInfo) ≠ [] ∧
    (defaultLo (pipeline exBase exInfo) =
        medianSpec (presentScores (pipeline exBase exInfo)) ∧
      defaultHi (pipeline exBase exInfo) ∈ presentScores (pipeline exBase exInfo) ∧
      (∀ x ∈ presentScores (pipeline exBase exInfo),
          x ≤ defaultHi (pipeline exBase exInfo)) ∧
      (∀ s, s ∈ all_sectors (pipeline exBase exInfo) ↔
          ∃ r ∈ pipeline exBase exInfo, r.sector = some s)) :=
  ⟨by decide, default_filter_criteria (pipeline exBase exInfo) (by decide)⟩

/-- C5: the Screener is an exact filter — a row is in its output iff it is a
row of the input whose overall score is present and within the inclusive
bounds and whose sector is one of the selected sectors. -/
theorem screener_mem_iff (rows : List MergedRow) (lo hi : Rat)
    (sectors : List String) (r : MergedRow) :
    r ∈ screener rows lo hi sectors ↔
      r ∈ rows ∧ (∃ s, r.overall = some s ∧ lo ≤ s ∧ s ≤ hi) ∧
        (∃ sec, r.sector = some sec ∧ sec ∈ sectors) := by
  unfold screener
  rw [List.mem_filter]
  refine and_congr_right (fun _ => ?_)
  rcases hov : r.overall with _ | s <;> rcases hsec : r.sector with _ | sec <;>
    simp [hov, hsec, and_assoc]

/-- Witness for C5: a concrete in-range Tech row is kept. -/
theorem screener_mem_iff_witness :
    (⟨"A", some 5, none, none, none, none, some "Alpha", some "Tech", some 100⟩ :
        MergedRow) ∈
      screener
        [⟨"A", some 5, none, none, none, none, some "Alpha", some "Tech", some 100⟩]
        0 10 ["Tech"] :=
  (screener_mem_iff
    [⟨"A", some 5, none, none, none, none, some "Alpha", some "Tech", some 100⟩]
    0 10 ["Tech"]
    ⟨"A", some 5, none, none, none, none, some "Alpha", some "Tech", some 100⟩).mpr
    (by refine ⟨by decide, ⟨5, rfl, by norm_num, by norm_num⟩, ⟨"Tech", rfl, by decide⟩⟩)

/-- C6 counterexample: a lookup that returns an empty result without raising
is handed back as a zero-length series, not as the absent marker `None` —
so an empty result does not yield "absent" as the claim states. -/
theorem price_history_empty_ok_counterexample :
    get_price_history (fun _ => Except.ok ([] : PriceSeries)) "7203.T" =
      some ([] : PriceSeries) ∧
    some ([] : PriceSeries) ≠ (none : Option PriceSeries) :=
  ⟨rfl, fun hcontra => Option.noConfusion hcontra⟩

/-- C6 amended: `get_price_history` returns `None` exactly when the lookup
raises; a successful lookup — an empty series included — is returned as-is,
so absence (a raised lookup) stays distinguishable from a returned
zero-length series. -/
theorem price_history_none_iff_raise (hist : String → Except Unit PriceSeries)
    (t : String) :
    (get_price_history hist t = none ↔ hist t = Except.error ()) ∧
    (∀ s, hist t = Except.ok s → get_price_history hist t = some s) := by
  constructor
  · unfold get_price_history
    cases h : hist t with
    | error e => cases e; simp [h]
    | ok s => simp [h]
  · intro s hs
    unfold get_price_history
    rw [hs]

/-- Witness for the amended C6 at a concrete successful lookup. -/
theorem price_history_none_iff_raise_witness :
    get_price_history (fun _ => Except.ok ([(0, 5)] : PriceSeries)) "8306.T" =
      some ([(0, 5)] : PriceSeries) :=
  (price_history_none_iff_raise (fun _ => Except.ok ([(0, 5)] : PriceSeries))
    "8306.T").2 [(0, 5)] rfl

/-- C7: when the ranking file exists, loading succeeds (returns a table);
the loaded table has exactly the file's columns, so score columns missing
from the file stay missing (never zero-filled); a present score column is
numerically coerced cell by cell, other columns are untouched, and a
non-numeric cell coerces to missing rather than raising. -/
theorem load_data_missing_columns (parseNum : String → Option Rat)
    (fs : String → Option DataFrame) (file_path : String) (df : DataFrame)
    (hex : fs file_path = some df) :
    load_data_fs parseNum fs file_path = some (load_data parseNum df) ∧
    (load_data parseNum df).map Prod.fst = df.map Prod.fst ∧
    (∀ c, c ∈ score_cols → c ∉ df.map Prod.fst →
        c ∉ (load_data parseNum df).map Prod.fst) ∧
    (∀ c cells, (c, cells) ∈ df → c ∈ score_cols →
        (c, cells.map (toNumeric parseNum)) ∈ load_data parseNum df) ∧
    (∀ c cells, (c, cells) ∈ df → c ∉ score_cols →
        (c, cells) ∈ load_data parseNum df) ∧
    (∀ s, parseNum s = none → toNumeric parseNum (Value.str s) = Value.na) := by
  have hcols : (load_data parseNum df).map Prod.fst = df.map Prod.fst := by
    unfold load_data
    rw [List.map_map]
    refine List.map_congr_left (fun c _ => ?_)
    show ((if c.1 ∈ score_cols then (c.1, c.2.map (toNumeric parseNum)) else c)).1 = c.1
    split <;> rfl
  refine ⟨?_, hcols, ?_, ?_, ?_, ?_⟩
  · unfold load_data_fs
    rw [hex]
  · intro c _ hnot hmem
    rw [hcols] at hmem
    exact hnot hmem
  · intro c cells hmem hsc
    unfold load_data
    refine List.mem_map.mpr ⟨(c, cells), hmem, ?_⟩
    simp [hsc]
  · intro c cells hmem hsc
    unfold load_data
    refine List.mem_map.mpr ⟨(c, cells), hmem, ?_⟩
    simp [hsc]
  · intro s hps
    simp [toNumeric, hps]

/-- Witness for C7 at a concrete two-column file with a non-numeric score
cell and two of the five score columns missing entirely. -/
theorem load_data_missing_columns_witness :
    load_data_fs (fun _ => none)
        (fun p => if p = "TSE_all_comprehensive_ranking_2025-07.csv"
          then some [("ティッカー", [Value.str "A"]),
                     ("総合スコア", [Value.str "hello", Value.num 5])]
          else none)
        "TSE_all_comprehensive_ranking_2025-07.csv" =
      some (load_data (fun _ => none)
        [("ティッカー", [Value.str "A"]),
         ("総合スコア", [Value.str "hello", Value.num 5])]) :=
  (load_data_missing_columns (fun _ => none)
    (fun p => if p = "TSE_all_comprehensive_ranking_2025-07.csv"
      then some [("ティッカー", [Value.str "A"]),
                 ("総合スコア", [Value.str "hello", Value.num 5])]
      else none)
    "TSE_all_comprehensive_ranking_2025-07.csv"
    [("ティッカー", [Value.str "A"]),
     ("総合スコア", [Value.str "hello", Value.num 5])] (by decide)).1

/-- C8: loading behind the memoizing cache is idempotent — a second call with
the same path returns the value of the first call and does not re-invoke the
underlying loader (the invocation flag of the second call is `false`). -/
theorem cached_load_data_idempotent (parseNum : String → Option Rat)
    (fs : String → Option DataFrame) (cache : List (String × Option DataFrame))
    (file_path : String) :
    (cachedCall (load_data_fs parseNum fs)
        (cachedCall (load_data_fs parseNum fs) cache file_path).2.1 file_path).1 =
      (cachedCall (load_data_fs parseNum fs) cache file_path).1 ∧
    (cachedCall (load_data_fs parseNum fs)
        (cachedCall (load_data_fs parseNum fs) cache file_path).2.1 file_path).2.2 =
      false := by
  cases h : cache.find? (fun p => p.1 == file_path) with
  | some p =>
    have h1 : cachedCall (load_data_fs parseNum fs) cache file_path =
        (p.2, cache, false) := by
      unfold cachedCall
      rw [h]
    rw [h1]
    unfold cachedCall
    rw [h]
    exact ⟨rfl, rfl⟩
  | none =>
    have h1 : cachedCall (load_data_fs parseNum fs) cache file_path =
        (load_data_fs parseNum fs file_path,
          (file_path, load_data_fs parseNum fs file_path) :: cache, true) := by
      unfold cachedCall
      rw [h]
    rw [h1]
    unfold cachedCall
    rw [List.find?_cons_of_pos _ (by simp)]
    exact ⟨rfl, rfl⟩

end Dashboard
